import Mathlib

/-!
Shallow embedding of the attribute-profiling core of
`src/python/list_index_attributes.py` (functions `get_byte_size`,
`getkeysizes`, `gethitsizes`, `getattributesizestats`), together with
proofs settling the specification claims about it.

Documents are modelled by a tagged value tree mirroring the Python values
that `response.json()` produces (str, int, bool, None, list, dict); floats
are outside the modelled universe (no claim concerns them).  Lists and
dicts are represented by bespoke mutual inductives (`ValueList`,
`FieldList`) so that every function below is compiled by structural
recursion and reduces inside the kernel.
-/

mutual

inductive Value where
  | str (s : String)
  | int (n : Int)
  | bool (b : Bool)
  | null
  | arr (elements : ValueList)
  | obj (fields : FieldList)

inductive ValueList where
  | nil
  | cons (head : Value) (tail : ValueList)

inductive FieldList where
  | nil
  | cons (key : String) (value : Value) (tail : FieldList)

end

/-- Convert a plain Lean list of values into a `ValueList` (input-building helper). -/
def VL : List Value → ValueList
  | [] => .nil
  | v :: rest => .cons v (VL rest)

/-- Convert a plain Lean association list into a `FieldList` (input-building helper). -/
def FL : List (String × Value) → FieldList
  | [] => .nil
  | (k, v) :: rest => .cons k v (FL rest)

mutual

/-- Python `==` between document values, as used by `obj.index(element)` in the
list branch of `getkeysizes`.  Fields of dicts are compared in iteration
order; Python's dict equality ignores key order, which coincides with this
comparison whenever the compared objects list their keys in the same order
(in particular for syntactically identical elements, the only comparisons these
documents exercise). -/
def valueBeq : Value → Value → Bool
  | .str a, .str b => a == b
  | .int a, .int b => a == b
  | .bool a, .bool b => a == b
  | .null, .null => true
  | .arr a, .arr b => vlBeq a b
  | .obj a, .obj b => flBeq a b
  | _, _ => false

def vlBeq : ValueList → ValueList → Bool
  | .nil, .nil => true
  | .cons x xs, .cons y ys => valueBeq x y && vlBeq xs ys
  | _, _ => false

def flBeq : FieldList → FieldList → Bool
  | .nil, .nil => true
  | .cons k v r, .cons k2 v2 r2 => k == k2 && valueBeq v v2 && flBeq r r2
  | _, _ => false

end

/-- Python `obj.index(element)`: zero-based position of the first element of
the list comparing `==`-equal to `x`.  (Python raises `ValueError` when the
element is absent; `getkeysizes` only ever looks up elements drawn from the
list itself, so that branch is unreachable and the fallthrough value is
irrelevant.) -/
def firstIndexVL (l : ValueList) (x : Value) : Nat :=
  match l with
  | .nil => 0
  | .cons h t => if valueBeq h x then 0 else 1 + firstIndexVL t x

/-! ### Python string primitives used by the profiler -/

/-- Python `s.split(sep)` for a one-character separator, on character lists:
always returns at least one (possibly empty) group. -/
def splitChar (c : Char) : List Char → List (List Char)
  | [] => [[]]
  | x :: xs =>
    match splitChar c xs with
    | [] => [[]]
    | g :: gs => if x = c then [] :: g :: gs else (x :: g) :: gs

/-- Python `s.split('.')` returning strings (`key_path.split('.')` in
`getkeysizes`). -/
def splitDot (s : String) : List String :=
  (splitChar '.' s.data).map String.mk

/-- Python `chars in s` membership test for a single character (also the
`regex=False` form of `Series.str.contains` used by `getattributesizestats`). -/
def charIn (c : Char) (s : String) : Bool :=
  s.data.contains c

/-- Python `s.strip(chars)`: removes leading and trailing characters drawn
from the set `chars` (used on `str(type(obj))` in `getkeysizes`). -/
def pyStrip (s : String) (chars : String) : String :=
  let trimmed := s.data.dropWhile (fun c => chars.data.contains c)
  String.mk ((trimmed.reverse.dropWhile (fun c => chars.data.contains c)).reverse)

mutual

/-- Scanner for Python `re.sub` of the lazy pattern backslash-bracket dot-star-question
backslash-bracket on `fullpath` in `getkeysizes`: each match starts at a
literal opening bracket and ends at the first closing bracket reachable
without crossing a newline (the dot of the pattern does not match a newline);
matched spans are deleted, everything else is kept. -/
def stripAux : List Char → List Char
  | [] => []
  | c :: rest =>
    if c = '[' then scanBracket [c] rest else c :: stripAux rest

/-- Helper of `stripAux`: looks for the closing bracket of a candidate match,
buffering the scanned characters.  On a closing bracket the whole buffered
span is deleted; at a newline or the end of input no match starting at the
buffered opening bracket (or at any opening bracket inside the buffer, which
would need the same closing bracket) is possible, so the buffer is emitted
verbatim. -/
def scanBracket (buf : List Char) : List Char → List Char
  | [] => buf.reverse
  | c :: rest =>
    if c = ']' then stripAux rest
    else if c = '\n' then buf.reverse ++ ('\n' :: stripAux rest)
    else scanBracket (c :: buf) rest

end

/-- Python `re.sub` deleting every lazily-matched bracketed span from a path:
this is the `obj_attribute` computation of `getkeysizes`, turning a full path
into its attribute-identity path. -/
def stripIndexMarkers (s : String) : String :=
  String.mk (stripAux s.data)

/-- Helper of `pyDedup`: keeps each element's first occurrence, skipping
elements already seen. -/
def pyDedupAux {α : Type} [DecidableEq α] (seen : List α) : List α → List α
  | [] => []
  | x :: xs =>
    if x ∈ seen then pyDedupAux seen xs else x :: pyDedupAux (x :: seen) xs

/-- Python `list(dict.fromkeys(l))`: order-preserving deduplication where the
first occurrence wins. -/
def pyDedup {α : Type} [DecidableEq α] (l : List α) : List α :=
  pyDedupAux [] l

/-! ### Value rendering: Python `str`/`repr` and `json.dumps`

`get_byte_size` measures `json.dumps(obj)` for dicts and `str(obj)` for
everything else; `str` of a list or of values nested inside a list falls back
to Python `repr`.  The renderings below model CPython for the embedded value
universe; `repr` keeps characters at or above `0x80` unescaped (CPython
escapes only non-printable ones, which do not occur in these documents). -/

def hexDigit (n : Nat) : Char :=
  if n < 10 then Char.ofNat (48 + n) else Char.ofNat (87 + (n % 16))

def hex2 (n : Nat) : String :=
  String.mk [hexDigit ((n / 16) % 16), hexDigit (n % 16)]

def hex4 (n : Nat) : String :=
  String.mk [hexDigit ((n / 4096) % 16), hexDigit ((n / 256) % 16),
             hexDigit ((n / 16) % 16), hexDigit (n % 16)]

/-- The apostrophe character (Python's default `repr` quote). -/
def squo : Char := '\x27'

/-- JSON escaping of one character as `json.dumps` performs it with its
default `ensure_ascii=True`: the two mandatory escapes, the short control
escapes, `\u` escapes for remaining control characters, and `\u` escapes
(with surrogate pairs beyond the basic plane) for every non-ASCII character. -/
def jsonEscapeChar (c : Char) : String :=
  if c = '"' then "\\\""
  else if c = '\\' then "\\\\"
  else if c = '\n' then "\\n"
  else if c = '\t' then "\\t"
  else if c = '\r' then "\\r"
  else if c = '\x08' then "\\b"
  else if c = '\x0c' then "\\f"
  else if c.toNat < 0x20 then "\\u" ++ hex4 c.toNat
  else if c.toNat < 0x7f then String.singleton c
  else if c.toNat < 0x10000 then "\\u" ++ hex4 c.toNat
  else
    "\\u" ++ hex4 (0xd800 + (c.toNat - 0x10000) / 0x400)
      ++ "\\u" ++ hex4 (0xdc00 + (c.toNat - 0x10000) % 0x400)

def jsonEscape (s : String) : String :=
  String.join (s.data.map jsonEscapeChar)

/-- Python `repr` escaping of one character inside a string literal quoted by
`quote`. -/
def pyReprChar (quote : Char) (c : Char) : String :=
  if c = '\\' then "\\\\"
  else if c = quote then String.mk ['\\', quote]
  else if c = '\n' then "\\n"
  else if c = '\t' then "\\t"
  else if c = '\r' then "\\r"
  else if c.toNat < 0x20 ∨ c.toNat = 0x7f then "\\x" ++ hex2 c.toNat
  else String.singleton c

/-- Python `repr` of a string: quoted with an apostrophe unless the string
contains an apostrophe but no double quote, in which case double quotes are
used. -/
def pyReprStr (s : String) : String :=
  let quote := if s.data.contains squo ∧ ¬ s.data.contains '"' then '"' else squo
  String.singleton quote ++ String.join (s.data.map (pyReprChar quote)) ++ String.singleton quote

mutual

/-- Python `json.dumps` with default separators, as `get_byte_size` applies it
to dict values. -/
def jsonDumps : Value → String
  | .str s => "\"" ++ jsonEscape s ++ "\""
  | .int n => toString n
  | .bool b => if b then "true" else "false"
  | .null => "null"
  | .arr l => "[" ++ jsonDumpsVL l ++ "]"
  | .obj m => "\x7b" ++ jsonDumpsFL m ++ "\x7d"

def jsonDumpsVL : ValueList → String
  | .nil => ""
  | .cons v .nil => jsonDumps v
  | .cons v rest => jsonDumps v ++ ", " ++ jsonDumpsVL rest

def jsonDumpsFL : FieldList → String
  | .nil => ""
  | .cons k v .nil => "\"" ++ jsonEscape k ++ "\": " ++ jsonDumps v
  | .cons k v rest => "\"" ++ jsonEscape k ++ "\": " ++ jsonDumps v ++ ", " ++ jsonDumpsFL rest

end

mutual

/-- Python `repr` of a value (the rendering `str` uses for the elements of
lists and dicts). -/
def pyRepr : Value → String
  | .str s => pyReprStr s
  | .int n => toString n
  | .bool b => if b then "True" else "False"
  | .null => "None"
  | .arr l => "[" ++ pyReprVL l ++ "]"
  | .obj m => "\x7b" ++ pyReprFL m ++ "\x7d"

def pyReprVL : ValueList → String
  | .nil => ""
  | .cons v .nil => pyRepr v
  | .cons v rest => pyRepr v ++ ", " ++ pyReprVL rest

def pyReprFL : FieldList → String
  | .nil => ""
  | .cons k v .nil => pyReprStr k ++ ": " ++ pyRepr v
  | .cons k v rest => pyReprStr k ++ ": " ++ pyRepr v ++ ", " ++ pyReprFL rest

end

/-- Python `str(obj)`: the string itself for strings, `repr` otherwise. -/
def pyStr : Value → String
  | .str s => s
  | v => pyRepr v

/-- Python type-name string of a value, as `str(type(obj))` renders it before
the two `strip` calls of `getkeysizes`. -/
def pyTypeName : Value → String
  | .str _ => "str"
  | .int _ => "int"
  | .bool _ => "bool"
  | .null => "NoneType"
  | .arr _ => "list"
  | .obj _ => "dict"

/-- The `typ` computation of `getkeysizes`:
`str(type(obj)).strip("<class ").strip("quote-gt")` — `strip` removes
characters of the given set from both ends, leaving the bare type name for
every type in the modelled universe. -/
def pyType (v : Value) : String :=
  pyStrip (pyStrip ("<class " ++ String.singleton squo ++ pyTypeName v ++ String.singleton squo ++ ">")
      "<class ") (String.singleton squo ++ ">")

/-- Python `len(s.encode(utf8))` — the UTF-8 byte length of a string. -/
def utf8Len (s : String) : Nat :=
  s.utf8ByteSize

/-- Embedding of `get_byte_size` (source lines 158–169): `json.dumps` for
dicts, `str` for everything else, then the UTF-8 encoded byte length. -/
def get_byte_size (obj : Value) : Nat :=
  match obj with
  | .obj _ => utf8Len (jsonDumps obj)
  | _ => utf8Len (pyStr obj)

example : pyType (Value.obj .nil) = "dict" := by decide
example : pyType (Value.arr .nil) = "list" := by decide
example : pyType (Value.int 3) = "int" := by decide
example : pyType (Value.str "a") = "str" := by decide
example : get_byte_size (Value.obj (FL [("b", Value.int 1)])) = 8 := by decide
example : get_byte_size (Value.str "X") = 1 := by decide
example : get_byte_size (Value.arr (VL [Value.str "x", Value.str "x"])) = 10 := by decide
example : stripIndexMarkers "_source.a[0].b" = "_source.a.b" := by decide
example : splitDot "_source.a" = ["_source", "a"] := by decide
example : pyDedup ["a", "b", "a", "c"] = ["a", "b", "c"] := by decide

example : firstIndexVL (VL [Value.str "x", Value.str "x"]) (Value.str "x") = 0 := by decide

example : vlBeq (VL [Value.int 3]) (VL [Value.int 3]) = true := rfl

/-! ### The profiling records and the recursive core -/

/-- One output tuple of `getkeysizes`/`gethitsizes`, per the column schema
`colnames` of `getattributesizes`: index, hmid, path, type, size, attributes,
attributecount.  The hmid column holds whatever `source.get('hubmap_id')`
returned, hence a `Value`. -/
structure SizeRec where
  index : String
  hmid : Value
  path : String
  typ : String
  size : Nat
  attributes : List String
  attributecount : Nat

/-- The path-building prologue of `getkeysizes` (source lines 231–240):
split the parent path on dots; take the last segment only when there is more
than one segment (otherwise the compared segment is the empty string); keep
the parent path unchanged when the current key equals that segment or the
segment contains an opening bracket; otherwise append a dot and the key. -/
def fullPathOf (key_path obj_key : String) : String :=
  let keysplit := splitDot key_path
  let last_key := if keysplit.length > 1 then keysplit.getLastD "" else ""
  if obj_key == last_key then key_path
  else if charIn '[' last_key then key_path
  else key_path ++ "." ++ obj_key

/-- Concatenation of the `attributes` column over a record list — the inner
loop `for les in listelementsizes: listattributes += les[5]`. -/
def recAttrs : List SizeRec → List String
  | [] => []
  | r :: rest => r.attributes ++ recAttrs rest

/-- Sum of the `size` column over a record list. -/
def sumSizes : List SizeRec → Nat
  | [] => 0
  | r :: rest => r.size + sumSizes rest

/-- State of the per-element loop of `getkeysizes`: accumulated attribute
names, accumulated element records (`listelement`), and the length of the
last recursive call's result (`len(listelementsizes)` after the loop, `0`
when the loop never ran). -/
structure ChildInfo where
  attrs : List String
  recs : List SizeRec
  lastLen : Nat

/-- Epilogue of `getkeysizes` (source lines 282–288): deduplicate the
object's own attribute-identity path followed by the accumulated child
attributes, emit the object's tuple, and append the element records only when
the last recursive result was non-empty. -/
def mkRecords (es_idx : String) (hmid : Value) (fullpath typName : String)
    (size : Nat) (obj_attribute : String) (info : ChildInfo) : List SizeRec :=
  let listuniqueattributes := pyDedup (obj_attribute :: info.attrs)
  ⟨es_idx, hmid, fullpath, typName, size, listuniqueattributes, listuniqueattributes.length⟩
    :: (if info.lastLen > 0 then info.recs else [])

mutual

/-- Embedding of `getkeysizes` (source lines 171–288): profiles one value,
recursing into list elements and dict entries. -/
def getkeysizes (es_idx : String) (hmid : Value) (key_path obj_key : String)
    (obj : Value) : List SizeRec :=
  let fullpath := fullPathOf key_path obj_key
  let obj_attribute := stripIndexMarkers fullpath
  match obj with
  | .arr l =>
      mkRecords es_idx hmid fullpath (pyType (.arr l)) (get_byte_size (.arr l)) obj_attribute
        (processArr es_idx hmid fullpath obj_key l l)
  | .obj m =>
      mkRecords es_idx hmid fullpath (pyType (.obj m)) (get_byte_size (.obj m)) obj_attribute
        (processFields es_idx hmid fullpath m)
  | .str s =>
      mkRecords es_idx hmid fullpath (pyType (.str s)) (get_byte_size (.str s)) obj_attribute ⟨[], [], 0⟩
  | .int n =>
      mkRecords es_idx hmid fullpath (pyType (.int n)) (get_byte_size (.int n)) obj_attribute ⟨[], [], 0⟩
  | .bool b =>
      mkRecords es_idx hmid fullpath (pyType (.bool b)) (get_byte_size (.bool b)) obj_attribute ⟨[], [], 0⟩
  | .null =>
      mkRecords es_idx hmid fullpath (pyType .null) (get_byte_size .null) obj_attribute ⟨[], [], 0⟩

/-- The `for element in obj` loop of `getkeysizes` for lists: each element's
child path appends the bracketed result of `obj.index(element)` — the
position of the first `==`-equal element of the whole list `orig` — and the
element is profiled under the unchanged `obj_key`. -/
def processArr (es_idx : String) (hmid : Value) (fullpath obj_key : String)
    (orig : ValueList) (remaining : ValueList) : ChildInfo :=
  match remaining with
  | .nil => ⟨[], [], 0⟩
  | .cons e rest =>
      let les := getkeysizes es_idx hmid
        (fullpath ++ "[" ++ toString (firstIndexVL orig e) ++ "]") obj_key e
      let tail := processArr es_idx hmid fullpath obj_key orig rest
      ⟨recAttrs les ++ tail.attrs, les ++ tail.recs,
       match rest with | .nil => les.length | .cons _ _ => tail.lastLen⟩

/-- The `for element in obj` loop of `getkeysizes` for dicts: each entry's
child path appends a dot and the entry key, and the entry value is profiled
under that key. -/
def processFields (es_idx : String) (hmid : Value) (fullpath : String)
    (fields : FieldList) : ChildInfo :=
  match fields with
  | .nil => ⟨[], [], 0⟩
  | .cons k v rest =>
      let les := getkeysizes es_idx hmid (fullpath ++ "." ++ k) k v
      let tail := processFields es_idx hmid fullpath rest
      ⟨recAttrs les ++ tail.attrs, les ++ tail.recs,
       match rest with | .nil => les.length | .cons _ _ _ => tail.lastLen⟩

end

/-- Python `d.get(key)` on a field list: the first matching value, if any. -/
def flGet : FieldList → String → Option Value
  | .nil, _ => none
  | .cons k v rest, key => if k == key then some v else flGet rest key

/-- Python `d.get(key)` with its `None` default. -/
def flGetD (fl : FieldList) (key : String) : Value :=
  (flGet fl key).getD .null

/-- The `for key in source` loop of `gethitsizes`: accumulates the total of
all record sizes, the flat attribute list (seeded with the root marker), the
deduplicated attribute list recomputed on every iteration (hence empty for a
document with no keys), and the concatenated records. -/
def hitLoop (es_idx : String) (hmid : Value) :
    FieldList → Nat → List String → List String → List SizeRec →
    Nat × List String × List SizeRec
  | .nil, allsizes, _, listunique, acc => (allsizes, listunique, acc)
  | .cons k v rest, allsizes, listattributes, _, acc =>
      let lks := getkeysizes es_idx hmid "_source" k v
      let attrs2 := listattributes ++ recAttrs lks
      hitLoop es_idx hmid rest (allsizes + sumSizes lks) attrs2 (pyDedup attrs2) (acc ++ lks)

/-- Embedding of `gethitsizes` (source lines 290–320): reads `_source` from
the hit (Python `.get` defaulting to `None`), reads the identifier with
`source.get('hubmap_id')` — again defaulting to `None`, never raising —
profiles every top-level key, and prepends the synthetic whole-document
tuple.  The result is `none` exactly when `_source` is not a dict, in which
case the Python raises an `AttributeError` on `source.get`.  (The source also
reads `entity_type`; that value is never used.) -/
def gethitsizes (es_idx : String) (doc_hit : FieldList) : Option (List SizeRec) :=
  match flGetD doc_hit "_source" with
  | .obj m =>
      let hmid := flGetD m "hubmap_id"
      let res := hitLoop es_idx hmid m 0 ["_source"] [] []
      some (⟨es_idx, hmid, "_source", "dict", res.1, res.2.1, res.2.1.length⟩ :: res.2.2)
  | _ => none

/-! ### The aggregation layer -/

/-- One aggregated row of `getattributesizestats`: min, max and sum of the
`size` column, the row count of the group, and the max of `attributecount`.
Pandas reports the mean; it is the derived `AggRow.mean` below, kept out of
the structure so that every field is a natural number. -/
structure AggRow where
  sizeMin : Nat
  sizeMax : Nat
  sizeSum : Nat
  rowCount : Nat
  attrMax : Nat
deriving DecidableEq

/-- The pandas `mean` aggregate of a group. -/
def AggRow.mean (a : AggRow) : ℚ :=
  (a.sizeSum : ℚ) / (a.rowCount : ℚ)

/-- The row filter of `getattributesizestats` (source lines 470–471): type is
`dict` or `list`, and the path does not contain an opening bracket
(`regex=False` substring test). -/
def isContainerRow (r : SizeRec) : Bool :=
  (r.typ == "dict" || r.typ == "list") && !(charIn '[' r.path)

/-- Aggregates of one (non-empty) group of rows. -/
def aggRows : List SizeRec → AggRow
  | [] => ⟨0, 0, 0, 0, 0⟩
  | r :: rest =>
      ⟨(rest.map SizeRec.size).foldl Nat.min r.size,
       (rest.map SizeRec.size).foldl Nat.max r.size,
       sumSizes (r :: rest),
       (r :: rest).length,
       (rest.map SizeRec.attributecount).foldl Nat.max r.attributecount⟩

/-- Embedding of `getattributesizestats` (source lines 461–474): filter to
container rows whose path has no bracket, then group by the literal
(index, path) pair and aggregate.  Groups appear in first-seen order (pandas
sorts them by key for display; no claim depends on row order). -/
def getattributesizestats (recs : List SizeRec) : List ((String × String) × AggRow) :=
  let dfFiltered := recs.filter isContainerRow
  let keys := pyDedup (dfFiltered.map (fun r => (r.index, r.path)))
  keys.map (fun k => (k, aggRows (dfFiltered.filter (fun r => r.index == k.1 && r.path == k.2))))

example :
    (getkeysizes "i" (.str "h") "_source" "k"
        (Value.arr (VL [Value.str "x", Value.str "x"]))).map SizeRec.path =
      ["_source.k", "_source.k[0]", "_source.k[0]"] := by decide

example :
    (gethitsizes "i" (FL [("_source", Value.obj (FL [("a", Value.int 1)]))])).map
        (List.map SizeRec.size) = some [1, 1] := by decide

/-! ### Node counting and claim-side comparison definitions -/

mutual

/-- Number of nodes of a value tree: the value itself plus, for containers,
every descendant — so each object, array, scalar and array element is counted
exactly once. -/
def nodeCount : Value → Nat
  | .arr l => 1 + nodeCountVL l
  | .obj m => 1 + nodeCountFL m
  | .str _ => 1
  | .int _ => 1
  | .bool _ => 1
  | .null => 1

def nodeCountVL : ValueList → Nat
  | .nil => 0
  | .cons v rest => nodeCount v + nodeCountVL rest

def nodeCountFL : FieldList → Nat
  | .nil => 0
  | .cons _ v rest => nodeCount v + nodeCountFL rest

end

/-- Comparison definition following claim C1's words: the sum of the measured
sizes of the document's top-level field values only, one size per field. -/
def topFieldSizeSum : FieldList → Nat
  | .nil => 0
  | .cons _ v rest => get_byte_size v + topFieldSizeSum rest

/-- Comparison definition following claim C7's words: return the parent path
unchanged when its last dot-separated segment equals the key or contains an
opening bracket — with no exemption for single-segment parent paths —
otherwise append a dot and the key. -/
def specChildPath (parentPath childKey : String) : String :=
  let lastSeg := (splitDot parentPath).getLastD ""
  if childKey == lastSeg || charIn '[' lastSeg then parentPath
  else parentPath ++ "." ++ childKey

/-- The amended form of claim C7: the last-segment comparisons only see the
actual last segment when the parent path has more than one dot-separated
segment; for a single-segment parent path they compare against the empty
string, so such a path is returned unchanged exactly when the key is empty. -/
def amendedChildPath (parentPath childKey : String) : String :=
  let parts := splitDot parentPath
  let lastSeg := if parts.length > 1 then parts.getLastD "" else ""
  if childKey == lastSeg || charIn '[' lastSeg then parentPath
  else parentPath ++ "." ++ childKey

/-- Serialized/textual representation whose byte size `get_byte_size`
reports: `json.dumps` for dicts, `str` for everything else. -/
def serializedForm (v : Value) : String :=
  match v with
  | .obj _ => jsonDumps v
  | _ => pyStr v

/-! ### Shared record invariants -/

/-- Invariant of every record `getkeysizes` emits when called with index
`es_idx` and identifier `hmid`: the record carries exactly those two tags,
its attribute list is non-empty and starts with the record's own
attribute-identity path (its path with every bracketed span stripped), and
the attribute count is the length of the deduplicated list, hence at least
one. -/
def GoodRec (es_idx : String) (hmid : Value) (r : SizeRec) : Prop :=
  r.index = es_idx ∧ r.hmid = hmid ∧ r.attributes ≠ [] ∧
    r.attributes.head? = some (stripIndexMarkers r.path) ∧
    r.attributecount = r.attributes.length ∧ 1 ≤ r.attributecount

theorem pyDedup_cons {α : Type} [DecidableEq α] (x : α) (l : List α) :
    pyDedup (x :: l) = x :: pyDedupAux [x] l := by
  simp [pyDedup, pyDedupAux]

theorem mem_of_mem_pyDedupAux {α : Type} [DecidableEq α] :
    ∀ (l : List α) (seen : List α) (x : α), x ∈ pyDedupAux seen l → x ∈ l := by
  intro l
  induction l with
  | nil => intro seen x hx; simp [pyDedupAux] at hx
  | cons y ys ih =>
    intro seen x hx
    by_cases hy : y ∈ seen
    · simp [pyDedupAux, hy] at hx
      exact List.mem_cons_of_mem _ (ih _ _ hx)
    · simp [pyDedupAux, hy] at hx
      rcases hx with rfl | hx
      · exact List.mem_cons_self _ _
      · exact List.mem_cons_of_mem _ (ih _ _ hx)

theorem good_mkRecords (es_idx : String) (hmid : Value) (fullpath typName : String)
    (size : Nat) (info : ChildInfo)
    (hinfo : ∀ r ∈ info.recs, GoodRec es_idx hmid r) :
    ∀ r ∈ mkRecords es_idx hmid fullpath typName size (stripIndexMarkers fullpath) info,
      GoodRec es_idx hmid r := by
  intro r hr
  simp only [mkRecords, List.mem_cons] at hr
  rcases hr with rfl | hr
  · refine ⟨rfl, rfl, ?_, ?_, rfl, ?_⟩ <;> simp [pyDedup_cons]
  · rcases hr with hr
    by_cases hl : info.lastLen > 0
    · simp only [if_pos hl] at hr
      exact hinfo r hr
    · simp only [if_neg hl] at hr
      simp at hr

mutual

theorem getkeysizes_good (es_idx : String) (hmid : Value) (key_path obj_key : String)
    (obj : Value) : ∀ r ∈ getkeysizes es_idx hmid key_path obj_key obj, GoodRec es_idx hmid r := by
  cases obj with
  | arr l =>
    intro r hr
    simp only [getkeysizes] at hr
    exact good_mkRecords _ _ _ _ _ _
      (fun r' hr' => processArr_good es_idx hmid _ obj_key l l r' hr') r hr
  | obj m =>
    intro r hr
    simp only [getkeysizes] at hr
    exact good_mkRecords _ _ _ _ _ _
      (fun r' hr' => processFields_good es_idx hmid _ m r' hr') r hr
  | str s =>
    intro r hr
    simp only [getkeysizes] at hr
    exact good_mkRecords _ _ _ _ _ _ (fun r' hr' => by simp at hr') r hr
  | int n =>
    intro r hr
    simp only [getkeysizes] at hr
    exact good_mkRecords _ _ _ _ _ _ (fun r' hr' => by simp at hr') r hr
  | bool b =>
    intro r hr
    simp only [getkeysizes] at hr
    exact good_mkRecords _ _ _ _ _ _ (fun r' hr' => by simp at hr') r hr
  | null =>
    intro r hr
    simp only [getkeysizes] at hr
    exact good_mkRecords _ _ _ _ _ _ (fun r' hr' => by simp at hr') r hr

theorem processArr_good (es_idx : String) (hmid : Value) (fullpath obj_key : String)
    (orig : ValueList) (remaining : ValueList) :
    ∀ r ∈ (processArr es_idx hmid fullpath obj_key orig remaining).recs,
      GoodRec es_idx hmid r := by
  cases remaining with
  | nil => intro r hr; simp [processArr] at hr
  | cons e rest =>
    intro r hr
    simp only [processArr] at hr
    rcases List.mem_append.mp hr with hr | hr
    · exact getkeysizes_good es_idx hmid _ obj_key e r hr
    · exact processArr_good es_idx hmid fullpath obj_key orig rest r hr

theorem processFields_good (es_idx : String) (hmid : Value) (fullpath : String)
    (fields : FieldList) :
    ∀ r ∈ (processFields es_idx hmid fullpath fields).recs, GoodRec es_idx hmid r := by
  cases fields with
  | nil => intro r hr; simp [processFields] at hr
  | cons k v rest =>
    intro r hr
    simp only [processFields] at hr
    rcases List.mem_append.mp hr with hr | hr
    · exact getkeysizes_good es_idx hmid _ k v r hr
    · exact processFields_good es_idx hmid fullpath rest r hr

end

/-! ### Record counting: one record per visited node -/

theorem nodeCount_pos (v : Value) : 1 ≤ nodeCount v := by
  cases v <;> simp [nodeCount]

theorem mkRecords_length (es_idx : String) (hmid : Value) (fullpath typName : String)
    (size : Nat) (oa : String) (info : ChildInfo) :
    (mkRecords es_idx hmid fullpath typName size oa info).length =
      1 + (if info.lastLen > 0 then info.recs.length else 0) := by
  simp only [mkRecords, List.length_cons]
  by_cases h : info.lastLen > 0
  · simp [h]; omega
  · simp [h]

mutual

theorem getkeysizes_length (es_idx : String) (hmid : Value) (key_path obj_key : String)
    (obj : Value) :
    (getkeysizes es_idx hmid key_path obj_key obj).length = nodeCount obj := by
  cases obj with
  | arr l =>
    cases l with
    | nil => simp [getkeysizes, processArr, mkRecords, nodeCount, nodeCountVL]
    | cons e rest =>
      have hpos := processArr_lastLen_pos es_idx hmid
        (fullPathOf key_path obj_key) obj_key (ValueList.cons e rest) e rest
      have hlen := processArr_length es_idx hmid
        (fullPathOf key_path obj_key) obj_key (ValueList.cons e rest) (ValueList.cons e rest)
      simp only [getkeysizes, mkRecords_length, nodeCount]
      rw [if_pos (by omega), hlen]
  | obj m =>
    cases m with
    | nil => simp [getkeysizes, processFields, mkRecords, nodeCount, nodeCountFL]
    | cons k v rest =>
      have hpos := processFields_lastLen_pos es_idx hmid
        (fullPathOf key_path obj_key) k v rest
      have hlen := processFields_length es_idx hmid
        (fullPathOf key_path obj_key) (FieldList.cons k v rest)
      simp only [getkeysizes, mkRecords_length, nodeCount]
      rw [if_pos (by omega), hlen]
  | str s => simp [getkeysizes, mkRecords, nodeCount]
  | int n => simp [getkeysizes, mkRecords, nodeCount]
  | bool b => simp [getkeysizes, mkRecords, nodeCount]
  | null => simp [getkeysizes, mkRecords, nodeCount]
termination_by sizeOf obj

theorem processArr_length (es_idx : String) (hmid : Value) (fullpath obj_key : String)
    (orig : ValueList) (remaining : ValueList) :
    (processArr es_idx hmid fullpath obj_key orig remaining).recs.length =
      nodeCountVL remaining := by
  cases remaining with
  | nil => simp [processArr, nodeCountVL]
  | cons e rest =>
    have h1 := getkeysizes_length es_idx hmid
      (fullpath ++ "[" ++ toString (firstIndexVL orig e) ++ "]") obj_key e
    have h2 := processArr_length es_idx hmid fullpath obj_key orig rest
    simp only [processArr, List.length_append, nodeCountVL]
    omega
termination_by sizeOf remaining

theorem processArr_lastLen_pos (es_idx : String) (hmid : Value) (fullpath obj_key : String)
    (orig : ValueList) (e : Value) (rest : ValueList) :
    1 ≤ (processArr es_idx hmid fullpath obj_key orig (ValueList.cons e rest)).lastLen := by
  cases rest with
  | nil =>
    have h1 := getkeysizes_length es_idx hmid
      (fullpath ++ "[" ++ toString (firstIndexVL orig e) ++ "]") obj_key e
    have h2 := nodeCount_pos e
    simp only [processArr]
    omega
  | cons e2 rest2 =>
    have := processArr_lastLen_pos es_idx hmid fullpath obj_key orig e2 rest2
    simp only [processArr] at this ⊢
    omega
termination_by sizeOf (ValueList.cons e rest)

theorem processFields_length (es_idx : String) (hmid : Value) (fullpath : String)
    (fields : FieldList) :
    (processFields es_idx hmid fullpath fields).recs.length = nodeCountFL fields := by
  cases fields with
  | nil => simp [processFields, nodeCountFL]
  | cons k v rest =>
    have h1 := getkeysizes_length es_idx hmid (fullpath ++ "." ++ k) k v
    have h2 := processFields_length es_idx hmid fullpath rest
    simp only [processFields, List.length_append, nodeCountFL]
    omega
termination_by sizeOf fields

theorem processFields_lastLen_pos (es_idx : String) (hmid : Value) (fullpath : String)
    (k : String) (v : Value) (rest : FieldList) :
    1 ≤ (processFields es_idx hmid fullpath (FieldList.cons k v rest)).lastLen := by
  cases rest with
  | nil =>
    have h1 := getkeysizes_length es_idx hmid (fullpath ++ "." ++ k) k v
    have h2 := nodeCount_pos v
    simp only [processFields]
    omega
  | cons k2 v2 rest2 =>
    have := processFields_lastLen_pos es_idx hmid fullpath k2 v2 rest2
    simp only [processFields] at this ⊢
    omega
termination_by sizeOf (FieldList.cons k v rest)

end

/-! ### The document loop of `gethitsizes` -/

theorem sumSizes_append (x y : List SizeRec) :
    sumSizes (x ++ y) = sumSizes x + sumSizes y := by
  induction x with
  | nil => simp [sumSizes]
  | cons r rest ih => simp [sumSizes, ih]; omega

/-- Everything the claims need about the `for key in source` loop of
`gethitsizes`: the records it appends to `acc` are exactly the concatenated
`getkeysizes` results, their total size is what `allsizes` accumulates, there
is one record per node, and every appended record satisfies `GoodRec`. -/
theorem hitLoop_spec (es_idx : String) (hmid : Value) :
    ∀ (fl : FieldList) (a : Nat) (attrs u : List String) (acc : List SizeRec),
      ∃ extra,
        (hitLoop es_idx hmid fl a attrs u acc).2.2 = acc ++ extra ∧
        (hitLoop es_idx hmid fl a attrs u acc).1 = a + sumSizes extra ∧
        extra.length = nodeCountFL fl ∧
        (∀ r ∈ extra, GoodRec es_idx hmid r)
  | .nil, a, attrs, u, acc =>
    ⟨[], by simp [hitLoop, sumSizes, nodeCountFL]⟩
  | .cons k v rest, a, attrs, u, acc => by
    obtain ⟨extra, h1, h2, h3, h4⟩ := hitLoop_spec es_idx hmid rest
      (a + sumSizes (getkeysizes es_idx hmid "_source" k v))
      (attrs ++ recAttrs (getkeysizes es_idx hmid "_source" k v))
      (pyDedup (attrs ++ recAttrs (getkeysizes es_idx hmid "_source" k v)))
      (acc ++ getkeysizes es_idx hmid "_source" k v)
    refine ⟨getkeysizes es_idx hmid "_source" k v ++ extra, ?_, ?_, ?_, ?_⟩
    · simp only [hitLoop]
      rw [h1, List.append_assoc]
    · simp only [hitLoop]
      rw [h2, sumSizes_append]
      omega
    · simp only [List.length_append, h3, nodeCountFL,
        getkeysizes_length es_idx hmid "_source" k v]
    · intro r hr
      rcases List.mem_append.mp hr with hr | hr
      · exact getkeysizes_good es_idx hmid "_source" k v r hr
      · exact h4 r hr

/-! ### Aggregation lemmas -/

theorem stripAux_no_bracket : ∀ l : List Char, '[' ∉ l → stripAux l = l := by
  intro l
  induction l with
  | nil => intro _; rfl
  | cons c rest ih =>
    intro h
    have hc : c ≠ '[' := fun hc => h (hc ▸ List.mem_cons_self c rest)
    have hr : '[' ∉ rest := fun hr => h (List.mem_cons_of_mem c hr)
    simp [stripAux, hc, ih hr]

theorem stripIndexMarkers_no_bracket (s : String) (h : charIn '[' s = false) :
    stripIndexMarkers s = s := by
  have hb : '[' ∉ s.data := by
    intro hm
    simp [charIn, List.contains, List.elem_eq_mem, hm] at h
  obtain ⟨d⟩ := s
  simp only [stripIndexMarkers]
  rw [stripAux_no_bracket d hb]

theorem bool_ite_or {α : Type} (b1 b2 : Bool) (a c : α) :
    (if b1 then a else if b2 then a else c) = if (b1 || b2) then a else c := by
  cases b1 <;> cases b2 <;> simp

theorem filter_isContainerRow_drop_bracketed (recs : List SizeRec) :
    (recs.filter (fun r => !(charIn '[' r.path))).filter isContainerRow =
      recs.filter isContainerRow := by
  rw [List.filter_filter]
  apply List.filter_congr
  intro r _
  cases hb : charIn '[' r.path <;> simp [isContainerRow, hb]

/-! ### Claim theorems -/

/-- C4 (counterexample): for the document with identifier X1 and field `a`
holding the object with entries b = 1 and c = 2, profiling the field `a` (as
`gethitsizes` invokes it, with parent path `_source`) does not yield the
records the claim describes: no record has path `a`, no record has an empty
attribute list or attribute count `0`, and the (path, attributes, count)
projections differ from the claimed ones. -/
theorem c4_counterexample :
    ((getkeysizes "i" (Value.str "X1") "_source" "a"
        (Value.obj (FL [("b", Value.int 1), ("c", Value.int 2)]))).map
        (fun r => (r.path, r.attributes, r.attributecount)) ≠
      [("a", ["b", "c"], 2), ("a.b", [], 0), ("a.c", [], 0)]) ∧
    (getkeysizes "i" (Value.str "X1") "_source" "a"
        (Value.obj (FL [("b", Value.int 1), ("c", Value.int 2)]))).all
      (fun r => r.path != "a" && r.attributecount != 0 && !r.attributes.isEmpty) = true := by
  constructor
  · decide
  · decide

/-- C4 (amended): profiling the field `a` of that document yields exactly
three records, with root-marker-prefixed paths: `_source.a` of type `dict`
whose attribute list holds the attribute-identity paths of itself and of its
two entries (count 3), and `_source.a.b`, `_source.a.c` of type `int`, each
listing its own attribute-identity path (count 1).  The source records
attribute-identity paths (the record's own path included), not bare field
names. -/
theorem c4_scenario_actual_records :
    (getkeysizes "i" (Value.str "X1") "_source" "a"
        (Value.obj (FL [("b", Value.int 1), ("c", Value.int 2)]))).map
        (fun r => (r.path, r.typ, r.attributes, r.attributecount)) =
      [("_source.a", "dict", ["_source.a", "_source.a.b", "_source.a.c"], 3),
       ("_source.a.b", "int", ["_source.a.b"], 1),
       ("_source.a.c", "int", ["_source.a.c"], 1)] := by
  decide

/-- C6: profiling a list holding two equal elements gives both elements the
path of position 0 — `obj.index(element)` returns the position of the first
`==`-equal element, so distinct positions holding equal values do NOT get
distinct indexed paths, contradicting the claim (and the source's intent of
recording each element's own list index). -/
theorem c6_duplicate_elements_collapse :
    (getkeysizes "i" (Value.str "h") "_source" "k"
        (Value.arr (VL [Value.str "x", Value.str "x"]))).map SizeRec.path =
      ["_source.k", "_source.k[0]", "_source.k[0]"] ∧
    "_source.k[1]" ∉ (getkeysizes "i" (Value.str "h") "_source" "k"
        (Value.arr (VL [Value.str "x", Value.str "x"]))).map SizeRec.path := by
  constructor
  · decide
  · decide

/-- C7 (counterexample): for the single-segment parent path `a` and key `a`,
the claim's rule returns the parent path unchanged (its last segment equals
the key), but the code appends, producing `a.a` — the last-segment conditions
are skipped whenever the parent path has no dot. -/
theorem c7_counterexample :
    specChildPath "a" "a" = "a" ∧ fullPathOf "a" "a" = "a.a" ∧
    fullPathOf "a" "a" ≠ specChildPath "a" "a" := by
  refine ⟨by decide, by decide, by decide⟩

/-- C7 (amended): the path-building prologue of `getkeysizes` returns the
parent path unchanged when the last dot-separated segment equals the key or
contains an opening bracket, and otherwise appends a dot and the key — except
that for a parent path with a single segment (no dot) the compared segment is
taken to be the empty string, so such a path is extended unless the key is
empty. -/
theorem c7_path_rule_amended :
    ∀ key_path obj_key : String, fullPathOf key_path obj_key = amendedChildPath key_path obj_key := by
  intro kp k
  simp only [fullPathOf, amendedChildPath]
  exact bool_ite_or _ _ _ _

/-- C8: profiling is deterministic — the embedding of `gethitsizes` is a pure
function of the index name and the document (the source functions touch only
their parameters and local variables, no module-level mutable state), so two
calls on equal inputs return equal record sequences. -/
theorem c8_profiling_deterministic :
    ∀ (es_idx : String) (d1 d2 : FieldList), d1 = d2 →
      gethitsizes es_idx d1 = gethitsizes es_idx d2 := by
  intro es d1 d2 h
  rw [h]

/-- C8 witness: two identical calls on a concrete document agree. -/
theorem c8_profiling_deterministic_witness :
    gethitsizes "i" (FL [("_source", Value.obj (FL [("a", Value.int 1)]))]) =
      gethitsizes "i" (FL [("_source", Value.obj (FL [("a", Value.int 1)]))]) :=
  c8_profiling_deterministic "i" _ _ rfl

/-- C9: `get_byte_size` is total over every embedded value (it is a total
function by construction, mirroring the source's unconditional branches) and
returns the UTF-8 byte length of the value's serialized form — `json.dumps`
for dicts, `str` for everything else — which is a non-negative integer. -/
theorem c9_byte_size_total :
    ∀ v : Value, get_byte_size v = utf8Len (serializedForm v) ∧
      (0 : Int) ≤ (get_byte_size v : Int) := by
  intro v
  constructor
  · cases v <;> rfl
  · omega

/-- C1 (counterexample): for the document whose `_source` holds
`hubmap_id = X` and `a` = object with `b = 1`, the synthetic document-level
record has size 10 — the sum of the sizes of ALL records (1 for `hubmap_id`,
8 for `a`, 1 for the descendant `b`) — while the sum over the top-level
fields only is 9. -/
theorem c1_counterexample :
    ((gethitsizes "i" (FL [("_source", Value.obj (FL [("hubmap_id", Value.str "X"),
        ("a", Value.obj (FL [("b", Value.int 1)]))]))])).getD []).map SizeRec.size =
      [10, 1, 8, 1] ∧
    topFieldSizeSum (FL [("hubmap_id", Value.str "X"),
        ("a", Value.obj (FL [("b", Value.int 1)]))]) = 9 ∧
    ¬ (10 : Nat) = 9 := by
  refine ⟨by decide, by decide, by decide⟩

/-- C1 (amended): the synthetic document-level record prepended by
`gethitsizes` has `size` equal to the sum of the sizes of ALL subsequent
records — one measured size per visited node, descendants included — not of
the top-level fields only. -/
theorem c1_doc_size_sums_all_records :
    ∀ (es_idx : String) (doc_hit : FieldList) (r : SizeRec) (rs : List SizeRec),
      gethitsizes es_idx doc_hit = some (r :: rs) → r.size = sumSizes rs := by
  intro es doc r rs h
  cases hsrc : flGetD doc "_source" with
  | obj m =>
    simp only [gethitsizes, hsrc, Option.some.injEq, List.cons.injEq] at h
    obtain ⟨h1, h2⟩ := h
    obtain ⟨extra, e1, e2, e3, e4⟩ := hitLoop_spec es (flGetD m "hubmap_id") m 0 ["_source"] [] []
    rw [← h1, ← h2]
    show (hitLoop es (flGetD m "hubmap_id") m 0 ["_source"] [] []).1 =
      sumSizes (hitLoop es (flGetD m "hubmap_id") m 0 ["_source"] [] []).2.2
    rw [e1, e2]
    simp
  | str s => simp [gethitsizes, hsrc] at h
  | int n => simp [gethitsizes, hsrc] at h
  | bool b => simp [gethitsizes, hsrc] at h
  | null => simp [gethitsizes, hsrc] at h
  | arr l => simp [gethitsizes, hsrc] at h

/-- C1 witness: on a concrete document the document-level record's size
equals the sum over the remaining records. -/
theorem c1_doc_size_sums_all_records_witness :
    (SizeRec.mk "i" Value.null "_source" "dict" 1 ["_source", "_source.a"] 2).size =
      sumSizes [SizeRec.mk "i" Value.null "_source.a" "int" 1 ["_source.a"] 1] :=
  c1_doc_size_sums_all_records "i" (FL [("_source", Value.obj (FL [("a", Value.int 1)]))])
    (SizeRec.mk "i" Value.null "_source" "dict" 1 ["_source", "_source.a"] 2)
    [SizeRec.mk "i" Value.null "_source.a" "int" 1 ["_source.a"] 1] rfl

/-- C3 (counterexample): a document whose `_source` lacks `hubmap_id` is
processed without any failure — `gethitsizes` returns records — and every
record's identifier column holds the silently defaulted `None`. -/
theorem c3_counterexample :
    (gethitsizes "i" (FL [("_source", Value.obj (FL [("a", Value.int 1)]))])).isSome = true ∧
    ((gethitsizes "i" (FL [("_source", Value.obj (FL [("a", Value.int 1)]))])).getD []).map
      SizeRec.hmid = [Value.null, Value.null] :=
  ⟨rfl, rfl⟩

/-- C3 (amended): when the document's `_source` dict has no `hubmap_id`
entry, `gethitsizes` does not fail: `source.get` silently defaults the
identifier to `None`, and every emitted record carries that `None`. -/
theorem c3_missing_identifier_defaults :
    ∀ (es_idx : String) (doc_hit m : FieldList),
      flGetD doc_hit "_source" = Value.obj m →
      flGet m "hubmap_id" = none →
      ∃ l, gethitsizes es_idx doc_hit = some l ∧ ∀ r ∈ l, r.hmid = Value.null := by
  intro es doc m hsrc hnone
  have hm : flGetD m "hubmap_id" = Value.null := by simp [flGetD, hnone]
  obtain ⟨extra, e1, e2, e3, e4⟩ := hitLoop_spec es Value.null m 0 ["_source"] [] []
  refine ⟨SizeRec.mk es Value.null "_source" "dict"
      (hitLoop es Value.null m 0 ["_source"] [] []).1
      (hitLoop es Value.null m 0 ["_source"] [] []).2.1
      (hitLoop es Value.null m 0 ["_source"] [] []).2.1.length ::
      (hitLoop es Value.null m 0 ["_source"] [] []).2.2, ?_, ?_⟩
  · simp only [gethitsizes, hsrc, hm]
  · intro r hr
    rcases List.mem_cons.mp hr with rfl | hr
    · rfl
    · rw [e1] at hr
      simp only [List.nil_append] at hr
      exact (e4 r hr).2.1

/-- C3 witness: a concrete identifier-less document succeeds with all-`None`
identifiers. -/
theorem c3_missing_identifier_defaults_witness :
    ∃ l, gethitsizes "i" (FL [("_source", Value.obj (FL [("a", Value.int 1)]))]) = some l ∧
      ∀ r ∈ l, r.hmid = Value.null :=
  c3_missing_identifier_defaults "i" (FL [("_source", Value.obj (FL [("a", Value.int 1)]))])
    (FL [("a", Value.int 1)]) rfl rfl

/-- C5: for every well-formed document (one whose `_source` is a dict `m`),
`gethitsizes` returns exactly 1 synthetic document-level record plus one
record per node of the document's value tree — every object, array, scalar
and array element of every top-level field counted exactly once. -/
theorem c5_record_count :
    ∀ (es_idx : String) (doc_hit m : FieldList),
      flGetD doc_hit "_source" = Value.obj m →
      ∃ l, gethitsizes es_idx doc_hit = some l ∧ l.length = 1 + nodeCountFL m := by
  intro es doc m hsrc
  obtain ⟨extra, e1, e2, e3, e4⟩ := hitLoop_spec es (flGetD m "hubmap_id") m 0 ["_source"] [] []
  refine ⟨SizeRec.mk es (flGetD m "hubmap_id") "_source" "dict"
      (hitLoop es (flGetD m "hubmap_id") m 0 ["_source"] [] []).1
      (hitLoop es (flGetD m "hubmap_id") m 0 ["_source"] [] []).2.1
      (hitLoop es (flGetD m "hubmap_id") m 0 ["_source"] [] []).2.1.length ::
      (hitLoop es (flGetD m "hubmap_id") m 0 ["_source"] [] []).2.2, ?_, ?_⟩
  · simp only [gethitsizes, hsrc]
  · rw [List.length_cons, e1]
    simp only [List.nil_append, e3]
    omega

/-- C5 witness: a concrete one-field document yields 1 + 1 records. -/
theorem c5_record_count_witness :
    ∃ l, gethitsizes "i" (FL [("_source", Value.obj (FL [("a", Value.int 1)]))]) = some l ∧
      l.length = 1 + nodeCountFL (FL [("a", Value.int 1)]) :=
  c5_record_count "i" (FL [("_source", Value.obj (FL [("a", Value.int 1)]))])
    (FL [("a", Value.int 1)]) rfl

/-- C10: every record emitted by `getkeysizes` has a non-empty attribute
list beginning with the record's own attribute-identity path (the record's
path with every bracketed index marker stripped), and its attribute count
equals the length of that deduplicated list — hence is at least 1, for
scalars and empty containers included. -/
theorem c10_attribute_invariant :
    ∀ (es_idx : String) (hmid : Value) (key_path obj_key : String) (v : Value)
      (r : SizeRec), r ∈ getkeysizes es_idx hmid key_path obj_key v →
      r.attributes ≠ [] ∧ r.attributes.head? = some (stripIndexMarkers r.path) ∧
      r.attributecount = r.attributes.length ∧ 1 ≤ r.attributecount := by
  intro es h kp k v r hr
  obtain ⟨-, -, h3, h4, h5, h6⟩ := getkeysizes_good es h kp k v r hr
  exact ⟨h3, h4, h5, h6⟩

/-- C10 witness: the single record of a scalar field satisfies the
invariant. -/
theorem c10_attribute_invariant_witness :
    (SizeRec.mk "i" Value.null "_source.a" "int" 1 ["_source.a"] 1).attributes ≠ [] ∧
    (SizeRec.mk "i" Value.null "_source.a" "int" 1 ["_source.a"] 1).attributes.head? =
      some (stripIndexMarkers (SizeRec.mk "i" Value.null "_source.a" "int" 1 ["_source.a"] 1).path) ∧
    (SizeRec.mk "i" Value.null "_source.a" "int" 1 ["_source.a"] 1).attributecount =
      (SizeRec.mk "i" Value.null "_source.a" "int" 1 ["_source.a"] 1).attributes.length ∧
    1 ≤ (SizeRec.mk "i" Value.null "_source.a" "int" 1 ["_source.a"] 1).attributecount :=
  c10_attribute_invariant "i" Value.null "_source" "a" (Value.int 1)
    (SizeRec.mk "i" Value.null "_source.a" "int" 1 ["_source.a"] 1) (List.Mem.head _)

/-- C2 (counterexample): two `dict` records at paths that differ only in the
index marker — `list[0].field` and `list[1].field` — produce NO statistics
at all: the filter drops every row whose path contains a bracket, instead of
combining them under the index-stripped path `list.field`. -/
theorem c2_counterexample :
    getattributesizestats
        [SizeRec.mk "i" Value.null "list[0].field" "dict" 100 ["list.field"] 1,
         SizeRec.mk "i" Value.null "list[1].field" "dict" 140 ["list.field"] 1] = [] ∧
    ("i", "list.field") ∉
      (getattributesizestats
        [SizeRec.mk "i" Value.null "list[0].field" "dict" 100 ["list.field"] 1,
         SizeRec.mk "i" Value.null "list[1].field" "dict" 140 ["list.field"] 1]).map
        Prod.fst := by
  refine ⟨by decide, by decide⟩

/-- C2 (amended): `getattributesizestats` excludes every record whose path
contains an index marker — per-element paths and every path beneath an array
element alike — and groups the surviving container records by their literal
(index, path) pair; each surviving group key is free of index markers and
therefore coincides with its own attribute-identity path. -/
theorem c2_grouping_drops_bracketed :
    ∀ recs : List SizeRec,
      getattributesizestats recs =
        getattributesizestats (recs.filter (fun r => !(charIn '[' r.path))) ∧
      ∀ k ∈ (getattributesizestats recs).map Prod.fst,
        charIn '[' k.2 = false ∧ stripIndexMarkers k.2 = k.2 := by
  intro recs
  constructor
  · simp only [getattributesizestats, filter_isContainerRow_drop_bracketed]
  · intro k hk
    simp only [getattributesizestats, List.map_map] at hk
    obtain ⟨k0, hk0, heq⟩ := List.mem_map.mp hk
    have hkk : k0 = k := by simpa using heq
    subst hkk
    simp only [pyDedup] at hk0
    have hk2 := mem_of_mem_pyDedupAux
      ((recs.filter isContainerRow).map fun r => (r.index, r.path)) [] k0 hk0
    obtain ⟨r, hrmem, hreq⟩ := List.mem_map.mp hk2
    have hcont : isContainerRow r = true := (List.mem_filter.mp hrmem).2
    have hbr : charIn '[' r.path = false := by
      simp only [isContainerRow, Bool.and_eq_true, Bool.not_eq_true'] at hcont
      exact hcont.2
    have hpath : k0.2 = r.path := by rw [← hreq]
    rw [hpath]
    exact ⟨hbr, stripIndexMarkers_no_bracket _ hbr⟩

/-- C2 witness: a bracket-free concrete group key is its own
attribute-identity path. -/
theorem c2_grouping_drops_bracketed_witness :
    charIn '[' ("i", "meta").2 = false ∧
    stripIndexMarkers ("i", "meta").2 = ("i", "meta").2 :=
  (c2_grouping_drops_bracketed
      [SizeRec.mk "i" Value.null "meta" "dict" 100 ["meta"] 1]).2
    ("i", "meta") (List.Mem.head _)
